import Mathlib

/-!
Shallow embedding of the `script` subcommand of the bender repository
(`src/cmd/script.rs`): the source-group pipeline that filters, flattens,
splits into compile batches, aggregates global configuration and assembles
the template context.  Definitions are translated from the Rust source;
the data model (`SourceFile`/`SourceGroup`/`TargetSpec`, defined in the
repository outside the provided sources) is modelled from the spec.
-/

/-- Source-language category assigned to a file (`enum SourceType` in
`script.rs`). -/
inductive SourceType : Type where
  | Verilog : SourceType
  | Vhdl : SourceType
deriving DecidableEq, Repr

/-- Modelled from the spec: `TargetSpec` (defined in `src/target.rs`, not
among the provided sources) is either a wildcard that always applies or an
explicit set of target names. -/
inductive TargetSpec : Type where
  | Wildcard : TargetSpec
  | Names : List String → TargetSpec
deriving DecidableEq

/-- A preprocessor define: macro name together with an optional value
(`(String, Option<String>)` in `script.rs`). -/
def Define : Type := String × Option String

instance : DecidableEq Define := by
  unfold Define
  infer_instance

mutual

/-- Modelled from the spec: a source entry is either a single compilable
file path or a nested sub-group (`SourceFile` in `src/src.rs`, not among
the provided sources; its two variants `File` and `Group` are matched on
throughout `script.rs`). Paths are modelled as strings. -/
inductive SourceFile : Type where
  | file : String → SourceFile
  | group : SourceGroup → SourceFile

/-- Modelled from the spec: one package's or scope's contribution
(`SourceGroup` in `src/src.rs`, not among the provided sources; its field
list is visible in the fallback-group construction in `script.rs`).
Fields in order: package, independent, target, include_dirs,
export_incdirs, defines, files, dependencies, version. -/
inductive SourceGroup : Type where
  | mk :
      Option String →      -- package
      Bool →               -- independent
      TargetSpec →         -- target
      List String →        -- include_dirs
      List String →        -- export_incdirs
      List Define →        -- defines
      List SourceFile →    -- files
      List String →        -- dependencies
      Option String →      -- version
      SourceGroup

end

namespace SourceGroup

def package : SourceGroup → Option String
  | .mk p _ _ _ _ _ _ _ _ => p

def independent : SourceGroup → Bool
  | .mk _ i _ _ _ _ _ _ _ => i

def target : SourceGroup → TargetSpec
  | .mk _ _ t _ _ _ _ _ _ => t

def include_dirs : SourceGroup → List String
  | .mk _ _ _ d _ _ _ _ _ => d

def export_incdirs : SourceGroup → List String
  | .mk _ _ _ _ e _ _ _ _ => e

def defines : SourceGroup → List Define
  | .mk _ _ _ _ _ d _ _ _ => d

def files : SourceGroup → List SourceFile
  | .mk _ _ _ _ _ _ f _ _ => f

def dependencies : SourceGroup → List String
  | .mk _ _ _ _ _ _ _ d _ => d

def version : SourceGroup → Option String
  | .mk _ _ _ _ _ _ _ _ v => v

/-- Modelled from the spec: `get_incdirs` (defined in `src/src.rs`, not
among the provided sources) returns the group's visible include
directories; after flattening, ancestors' directories have already been
merged into the group, so this is the group's own merged directory list. -/
def get_incdirs (g : SourceGroup) : List String :=
  g.include_dirs

end SourceGroup

/-! ## File classification (`script.rs` lines 477-484)

`Path::extension()` in Rust returns the portion of the file name after the
final dot, or `None` when the file name has no embedded dot or starts with
its only dot. -/

/-- The final path component: everything after the last `/`. -/
def fileNameChars (p : List Char) : List Char :=
  (p.reverse.takeWhile (fun c => c ≠ '/')).reverse

/-- Rust `Path::extension` on a file name (as characters): `none` when the
name is empty, has no dot, or starts with its only dot; otherwise the part
after the final dot. -/
def extensionChars : List Char → Option (List Char)
  | [] => none
  | c :: rest =>
    let body := if c = '.' then rest else c :: rest
    if body.contains '.' then
      some (body.reverse.takeWhile (fun x => x ≠ '.')).reverse
    else
      none

/-- Rust `Path::extension` on a path modelled as a string. -/
def pathExtension (p : String) : Option String :=
  (extensionChars (fileNameChars p.toList)).map (fun l => String.mk l)

/-- The categorizer closure passed to `separate_files_in_group` in
`emit_template` (`script.rs` lines 477-484): `.sv`/`.v`/`.vp` files are
Verilog, `.vhd`/`.vhdl` files are VHDL, everything else (including nested
groups) is unclassified. -/
def categorize (f : SourceFile) : Option SourceType :=
  match f with
  | .file p =>
    match pathExtension p with
    | some "sv" => some SourceType.Verilog
    | some "v" => some SourceType.Verilog
    | some "vp" => some SourceType.Verilog
    | some "vhd" => some SourceType.Vhdl
    | some "vhdl" => some SourceType.Vhdl
    | _ => none
  | .group _ => none

/-! ## Batch splitting (`separate_files_in_group`, `script.rs` lines 351-373)

The Rust loop keeps a current category and an accumulator of files; a file
whose category is `None` is skipped (`continue`); a classified file whose
category differs from the current one first flushes the accumulated batch
to `consume`; at the end a non-empty accumulator is flushed.  The mutable
state `(category, files)` satisfies `category.is_some() ↔ !files.is_empty()`,
so it is modelled as `Option (category × accumulated files)`; flushed
batches are collected in emission order. -/

/-- One iteration of the loop body of `separate_files_in_group`. -/
def sepStep {T : Type} [DecidableEq T] (categorizer : SourceFile → Option T)
    (st : List (T × List SourceFile) × Option (T × List SourceFile))
    (f : SourceFile) :
    List (T × List SourceFile) × Option (T × List SourceFile) :=
  match categorizer f with
  | none => st
  | some newCat =>
    match st.2 with
    | none => (st.1, some (newCat, [f]))
    | some (cat, fs) =>
      if cat = newCat then (st.1, some (cat, fs ++ [f]))
      else (st.1 ++ [(cat, fs)], some (newCat, [f]))

/-- `separate_files_in_group` (`script.rs` lines 351-373) as a pure
function: the list of batches passed to `consume`, in call order. -/
def separate_files_in_group {T : Type} [DecidableEq T]
    (categorizer : SourceFile → Option T) (files : List SourceFile) :
    List (T × List SourceFile) :=
  let st := files.foldl (sepStep categorizer) ([], none)
  st.1 ++ st.2.toList

/-! ## CLI define parsing (`add_defines_from_matches`, `script.rs` lines 394-403)

Each `--define` argument is split with `splitn(2, '=')`: at the first `=`
only; both parts are trimmed; an argument without `=` yields no value. -/

/-- Rust `str::splitn(2, '=')` on characters: the part before the first
`=` and, when a `=` exists, everything after it (further `=` included). -/
def splitFirstEq : List Char → List Char × Option (List Char)
  | [] => ([], none)
  | c :: cs =>
    if c = '=' then ([], some cs)
    else
      let r := splitFirstEq cs
      (c :: r.1, r.2)

/-- Rust `str::trim` on characters: remove leading and trailing
whitespace. -/
def trimChars (l : List Char) : List Char :=
  ((l.dropWhile Char.isWhitespace).reverse.dropWhile Char.isWhitespace).reverse

/-- The per-argument body of `add_defines_from_matches` (`script.rs`
lines 396-401), on characters: name before the first `=`, optional value
after it, both trimmed. -/
def parseDefineChars (l : List Char) : List Char × Option (List Char) :=
  let r := splitFirstEq l
  (trimChars r.1, r.2.map trimChars)

/-- The per-argument body of `add_defines_from_matches` on strings. -/
def parseDefine (s : String) : Define :=
  let r := parseDefineChars s.toList
  (String.mk r.1, r.2.map (fun l => String.mk l))

/-- `add_defines_from_matches` (`script.rs` lines 394-403): append one
parsed define per `--define` argument, in argument order. -/
def add_defines_from_matches (defs : List Define) (args : List String) :
    List Define :=
  defs ++ args.map parseDefine

/-! ## Global defines (`emit_template`, `script.rs` lines 421-429)

`defines` starts empty, one `(TARGET_<uppercased name>, None)` entry is
added per active target, the CLI `--define` arguments are appended, and
the vector is sorted with `Vec::sort` (ascending by the derived
lexicographic order on `(String, Option<String>)`, where `None < Some`).
Since that order is total and antisymmetric, the sorted result is the
unique sorted permutation of its input, which the insertion sort below
computes.  `str::to_uppercase` is modelled char-wise (identical on
ASCII). -/

/-- Rust `Ord` on `String`, char-wise lexicographic (identical to Rust's
byte-wise comparison on ASCII): strict less-than on character lists. -/
def charsLT : List Char → List Char → Bool
  | [], [] => false
  | [], _ :: _ => true
  | _ :: _, [] => false
  | a :: as, b :: bs =>
    if a < b then true
    else if b < a then false
    else charsLT as bs

/-- Non-strict string order derived from `charsLT`. -/
def strLE (a b : String) : Bool := !(charsLT b.data a.data)

/-- Rust `Ord` on `Option<String>`: `None` sorts before `Some`. -/
def optValLE : Option String → Option String → Bool
  | none, _ => true
  | some _, none => false
  | some a, some b => strLE a b

/-- Rust derived `Ord` on `(String, Option<String>)` as a non-strict
comparison: names compared first, values break ties. -/
def defLE (a b : Define) : Bool :=
  if charsLT a.1.data b.1.data then true
  else if charsLT b.1.data a.1.data then false
  else optValLE a.2 b.2

def insertDef (x : Define) : List Define → List Define
  | [] => [x]
  | y :: ys => if defLE x y then x :: y :: ys else y :: insertDef x ys

/-- `Vec::sort` on the define list: ascending by `defLE`. -/
def sortDefines : List Define → List Define
  | [] => []
  | x :: xs => insertDef x (sortDefines xs)

/-- The target-derived defines (`script.rs` lines 422-426): one
`TARGET_<NAME>` define, uppercased, with no value, per active target, in
target-set iteration order. -/
def strToUpper (s : String) : String :=
  String.mk (s.data.map Char.toUpper)

def targetDefines (targets : List String) : List Define :=
  targets.map (fun t => ("TARGET_" ++ strToUpper t, none))

/-- The global define list (`script.rs` lines 421-429): target defines,
then CLI defines, sorted. -/
def globalDefines (targets : List String) (defineArgs : List String) :
    List Define :=
  sortDefines (add_defines_from_matches (targetDefines targets) defineArgs)

/-! ## Batch construction (`emit_template`, `script.rs` lines 473-516)

For each flattened group, `separate_files_in_group` is run with the
extension categorizer; each emitted batch becomes a `TplSrcStruct` whose
defines are the global defines followed by the group's own defines,
whose incdirs are the group's, and whose files are the batch's paths. -/

structure TplSrcStruct : Type where
  defines : List Define
  incdirs : List String
  files : List String
  file_type : String
deriving DecidableEq

/-- Path of a batch file.  In the Rust source a `Group` variant here hits
`unreachable!` — batches only ever contain classified files, which are
always `File` variants — so the `group` case is given a dummy value. -/
def sourceFilePath : SourceFile → String
  | .file p => p
  | .group _ => ""

/-- `SourceType` to the `file_type` string (`script.rs` lines 509-512). -/
def fileTypeStr : SourceType → String
  | SourceType.Verilog => "verilog"
  | SourceType.Vhdl => "vhdl"

/-- The `split_srcs` vector (`script.rs` lines 473-516): batches of all
groups, groups in flattened order, batches in emission order. -/
def mkSplitSrcs (globalDefs : List Define) (srcs : List SourceGroup) :
    List TplSrcStruct :=
  (srcs.map (fun src =>
    (separate_files_in_group categorize src.files).map (fun b =>
      { defines := globalDefs ++ src.defines
        incdirs := src.get_incdirs
        files := b.2.map sourceFilePath
        file_type := fileTypeStr b.1 : TplSrcStruct }))).flatten

/-! ## Deduplicating aggregates (`emit_template`, `script.rs` lines 431-471
and 517-548)

`all_incdirs`, `all_files`, `all_verilog` and `all_vhdl` are each built by
appending per-group (or per-batch) lists in order and collecting into an
`IndexSet`, which keeps the first occurrence of each element at the
position where it first appeared. -/

/-- `IndexSet::collect` on a list: keep each element's first occurrence,
in order. -/
def dedupFirstWins {α : Type} [DecidableEq α] (l : List α) : List α :=
  l.foldl (fun acc x => if x ∈ acc then acc else acc ++ [x]) []

/-- The `filter_map` in the `all_files` construction (`script.rs` lines
462-466): keep `File` paths, drop `Group` variants. -/
def filePath : SourceFile → Option String
  | .file p => some p
  | .group _ => none

/-- The undeduplicated `all_defines` vector (`script.rs` lines 431-444):
global defines then every group's defines, groups in flattened order. -/
def allDefinesRaw (globalDefs : List Define) (srcs : List SourceGroup) :
    List Define :=
  globalDefs ++ (srcs.map SourceGroup.defines).flatten

/-- `all_incdirs` before gating (`script.rs` lines 436-444, 452-457). -/
def allIncdirsAgg (srcs : List SourceGroup) : List String :=
  dedupFirstWins (srcs.map SourceGroup.get_incdirs).flatten

/-- `all_files` before gating (`script.rs` lines 436-444, 459-470). -/
def allFilesAgg (srcs : List SourceGroup) : List String :=
  dedupFirstWins (((srcs.map SourceGroup.files).flatten).filterMap filePath)

/-- `all_verilog` before gating (`script.rs` lines 517-527, 535-540). -/
def allVerilogAgg (splitSrcs : List TplSrcStruct) : List String :=
  dedupFirstWins
    ((splitSrcs.filter (fun s => s.file_type = "verilog")).map TplSrcStruct.files).flatten

/-- `all_vhdl` before gating (`script.rs` lines 517-527, 541-546). -/
def allVhdlAgg (splitSrcs : List TplSrcStruct) : List String :=
  dedupFirstWins
    ((splitSrcs.filter (fun s => s.file_type = "vhdl")).map TplSrcStruct.files).flatten

/-! ## Partial-context gating (`emit_template`, `script.rs` lines 445-449,
452-457, 459-470, 528-532, 535-546) -/

/-- The three partial-context flags. -/
structure OnlyFlags : Type where
  only_defines : Bool
  only_includes : Bool
  only_sources : Bool
deriving DecidableEq

/-- Gate on `all_defines` (`script.rs` line 445): kept unless
`only-includes` or `only-sources` is set. -/
def gateDefines {α : Type} (fl : OnlyFlags) (l : List α) : List α :=
  if !fl.only_includes && !fl.only_sources then l else []

/-- Gate on `all_incdirs` (`script.rs` line 453): kept unless
`only-defines` or `only-sources` is set. -/
def gateIncdirs {α : Type} (fl : OnlyFlags) (l : List α) : List α :=
  if !fl.only_defines && !fl.only_sources then l else []

/-- Gate on `all_files`, `srcs`, `all_verilog` and `all_vhdl`
(`script.rs` lines 460, 528, 536, 542): kept unless `only-defines` or
`only-includes` is set. -/
def gateSources {α : Type} (fl : OnlyFlags) (l : List α) : List α :=
  if !fl.only_defines && !fl.only_includes then l else []

/-! ## Fallback group (`run`, `script.rs` lines 246-258)

`filter_targets` (defined in `src/src.rs`, outside the provided sources)
returns `Option<SourceGroup>`; `run` substitutes a well-defined empty
group when it returns `None`. -/

/-- The fallback `SourceGroup` literal of `script.rs` lines 248-258:
default (empty) package, `independent = true`, `target = Wildcard`, and
default (empty) include dirs, export incdirs, defines, files,
dependencies, and no version. -/
def fallbackGroup : SourceGroup :=
  SourceGroup.mk none true TargetSpec.Wildcard [] [] [] [] [] none

/-- The `unwrap_or_else` substitution applied to the result of
`filter_targets` (and of `filter_packages`) in `run`. -/
def substFallback (o : Option SourceGroup) : SourceGroup :=
  o.getD fallbackGroup

/-! ## Option validation and context assembly (`run` lines 296-319,
`emit_template` lines 407-592) -/

/-- The CLI inputs consumed by validation and context assembly.  `targets`
is the resolved active target set (`TargetSet` is defined in
`src/target.rs`, outside the provided sources; its iteration order is
modelled as a list of names). -/
structure CliMatches : Type where
  targets : List String
  define_args : List String
  vcom_args : List String
  vlog_args : List String
  only_flags : OnlyFlags
  no_simset : Bool
  vlogan_bin : String
  vhdlan_bin : String
  relative_path : Bool
  compilation_mode : String
  no_abort_on_error : Bool
deriving DecidableEq

/-- The two option-conflict errors of `run` (`script.rs` lines 296-319). -/
inductive ScriptErr : Type where
  | vsimOnlyOpts : ScriptErr
  | vivadoOnlyOpts : ScriptErr
deriving DecidableEq

/-- Format-specific option validation (`run`, `script.rs` lines 296-319):
`--vcom-arg`/`--vlog-arg` conflict with every format other than `vsim`,
`vcs`, `riviera`, `template` and `template_json`; the Vivado-only flags
conflict with every format that does not start with `vivado` and is not
`template`/`template_json`.  The first failing check wins. -/
def validateFormatOptions (m : CliMatches) (format : String) :
    Option ScriptErr :=
  if (!m.vcom_args.isEmpty || !m.vlog_args.isEmpty)
      && format != "vsim" && format != "vcs" && format != "riviera"
      && format != "template" && format != "template_json" then
    some ScriptErr.vsimOnlyOpts
  else if (m.only_flags.only_defines || m.only_flags.only_includes
        || m.only_flags.only_sources || m.no_simset)
      && !(format.startsWith "vivado")
      && format != "template" && format != "template_json" then
    some ScriptErr.vivadoOnlyOpts
  else
    none

/-- The template context assembled by `emit_template` (`script.rs` lines
407-592): every value inserted into the Tera context, in source order.
The rendering engine itself is an external black box. -/
structure TplContext : Type where
  header_autogen : String
  root : String
  abort_on_error : Bool
  global_defines : List Define
  all_defines : List Define
  all_incdirs : List String
  all_files : List String
  srcs : List TplSrcStruct
  all_verilog : List String
  all_vhdl : List String
  vlog_args : List String
  vcom_args : List String
  vlogan_bin : String
  vhdlan_bin : String
  relativize_path : Bool
  compilation_mode : String
  vivado_filesets : List String
deriving DecidableEq

/-- `emit_template`'s context assembly (`script.rs` lines 407-592) as a
pure function of the session root, the CLI matches and the flattened
groups. -/
def assembleContext (root : String) (m : CliMatches)
    (srcs : List SourceGroup) : TplContext :=
  let gdefs := globalDefines m.targets m.define_args
  let splitSrcs := mkSplitSrcs gdefs srcs
  { header_autogen := "This script was generated automatically by bender."
    root := root
    abort_on_error := !m.no_abort_on_error
    global_defines := gdefs
    all_defines := gateDefines m.only_flags (allDefinesRaw gdefs srcs)
    all_incdirs := gateIncdirs m.only_flags (allIncdirsAgg srcs)
    all_files := gateSources m.only_flags (allFilesAgg srcs)
    srcs := gateSources m.only_flags splitSrcs
    all_verilog := gateSources m.only_flags (allVerilogAgg splitSrcs)
    all_vhdl := gateSources m.only_flags (allVhdlAgg splitSrcs)
    vlog_args := m.vlog_args
    vcom_args := m.vcom_args
    vlogan_bin := m.vlogan_bin
    vhdlan_bin := m.vhdlan_bin
    relativize_path := m.relative_path
    compilation_mode := m.compilation_mode
    vivado_filesets := if m.no_simset then [""] else ["", " -simset"] }

/-- The validated tail of `run` (`script.rs` lines 296-343): option
validation first; only when it passes is the template context assembled
and handed to the (external) renderer. -/
def runScript (root : String) (m : CliMatches) (format : String)
    (srcs : List SourceGroup) : Except ScriptErr TplContext :=
  match validateFormatOptions m format with
  | some e => Except.error e
  | none => Except.ok (assembleContext root m srcs)

/-! ## Helper lemmas on the batch splitter -/

section SepLemmas

variable {T : Type} [DecidableEq T] (c : SourceFile → Option T)

/-- The files held by a splitter state: those in flushed batches followed
by the pending accumulator. -/
def stFiles (st : List (T × List SourceFile) × Option (T × List SourceFile)) :
    List SourceFile :=
  ((st.1 ++ st.2.toList).map Prod.snd).flatten

/-- The batch categories of a splitter state, flushed then pending. -/
def stCats (st : List (T × List SourceFile) × Option (T × List SourceFile)) :
    List T :=
  (st.1 ++ st.2.toList).map Prod.fst

lemma stFiles_sepStep (st) (f : SourceFile) :
    stFiles (sepStep c st f)
      = stFiles st ++ (if (c f).isSome then [f] else []) := by
  unfold sepStep
  cases hc : c f with
  | none => simp [hc]
  | some nc =>
    cases h2 : st.2 with
    | none =>
      simp [stFiles, h2]
    | some b =>
      obtain ⟨cat, fs⟩ := b
      by_cases heq : cat = nc
      · simp [heq, stFiles, h2]
      · simp [heq, stFiles, h2]

lemma stFiles_foldl (fs : List SourceFile) (st) :
    stFiles (fs.foldl (sepStep c) st)
      = stFiles st ++ fs.filter (fun f => (c f).isSome) := by
  induction fs generalizing st with
  | nil => simp
  | cons f fs ih =>
    rw [List.foldl_cons, ih, stFiles_sepStep, List.filter_cons]
    cases hc : c f <;> simp [hc]

/-- Concatenating all batches reproduces the classified subsequence. -/
lemma sep_concat (files : List SourceFile) :
    ((separate_files_in_group c files).map Prod.snd).flatten
      = files.filter (fun f => (c f).isSome) := by
  unfold separate_files_in_group
  have h := stFiles_foldl c files ([], none)
  simpa [stFiles] using h

lemma chain'_snoc_snoc {α : Type} {R : α → α → Prop} {l : List α} {a b : α}
    (h : List.Chain' R (l ++ [a])) (hab : R a b) :
    List.Chain' R (l ++ [a, b]) := by
  have he : l ++ [a, b] = (l ++ [a]) ++ [b] := by simp
  rw [he, List.chain'_append]
  refine ⟨h, List.chain'_singleton b, ?_⟩
  intro x hx y hy
  rw [List.getLast?_concat] at hx
  simp only [List.head?_cons, Option.mem_def, Option.some.injEq] at hx hy
  rw [← hx, ← hy]
  exact hab

/-- Splitter-state invariant: flushed and pending categories form a chain
of adjacent-distinct values, and flushing only ever starts once a pending
batch exists. -/
def stInv (st : List (T × List SourceFile) × Option (T × List SourceFile)) :
    Prop :=
  List.Chain' (fun a b => a ≠ b) (stCats st) ∧ (st.2 = none → st.1 = [])

lemma stInv_sepStep (st) (f : SourceFile) (h : stInv st) :
    stInv (sepStep c st f) := by
  rcases st with ⟨out, pending⟩
  cases hc : c f with
  | none =>
    have hs : sepStep c (out, pending) f = (out, pending) := by
      unfold sepStep
      rw [hc]
    rw [hs]
    exact h
  | some nc =>
    cases pending with
    | none =>
      have h1 : out = [] := h.2 rfl
      subst h1
      constructor
      · simp [sepStep, hc, stCats]
      · simp [sepStep, hc]
    | some b =>
      obtain ⟨cat, fs⟩ := b
      by_cases heq : cat = nc
      · subst heq
        constructor
        · have h1 := h.1
          simp only [stCats] at h1 ⊢
          simpa [sepStep, hc] using h1
        · simp [sepStep, hc]
      · constructor
        · have h1' : List.Chain' (fun a b => a ≠ b)
              (out.map Prod.fst ++ [cat]) := by
            simpa [stCats] using h.1
          have h2' := chain'_snoc_snoc h1' heq
          simpa [stCats, sepStep, hc, heq] using h2'
        · simp [sepStep, hc, heq]

lemma stInv_foldl (fs : List SourceFile) (st) (h : stInv st) :
    stInv (fs.foldl (sepStep c) st) := by
  induction fs generalizing st with
  | nil => exact h
  | cons f fs ih => exact ih _ (stInv_sepStep c st f h)

/-- No two adjacent batches share a category. -/
lemma sep_chain (files : List SourceFile) :
    List.Chain' (fun b1 b2 : T × List SourceFile => b1.1 ≠ b2.1)
      (separate_files_in_group c files) := by
  have h := stInv_foldl c files ([], none) ⟨by simp [stCats], fun _ => rfl⟩
  have h1 := h.1
  unfold stCats at h1
  rw [List.chain'_map] at h1
  exact h1

end SepLemmas

/-! ## Claim theorems -/

/-- C1: for every file sequence, concatenating the categorizer's batches
in emitted order yields exactly the classified subsequence of the input in
original order; no two adjacent batches share a category; and the input
`[a.sv, b.vhd, c.sv]` yields exactly the three batches
`(Verilog,[a.sv])`, `(Vhdl,[b.vhd])`, `(Verilog,[c.sv])`. -/
theorem C1_batch_contiguity (files : List SourceFile) :
    ((separate_files_in_group categorize files).map Prod.snd).flatten
        = files.filter (fun f => (categorize f).isSome)
    ∧ List.Chain' (fun b1 b2 : SourceType × List SourceFile => b1.1 ≠ b2.1)
        (separate_files_in_group categorize files)
    ∧ separate_files_in_group categorize
        [SourceFile.file "a.sv", SourceFile.file "b.vhd", SourceFile.file "c.sv"]
      = [(SourceType.Verilog, [SourceFile.file "a.sv"]),
         (SourceType.Vhdl, [SourceFile.file "b.vhd"]),
         (SourceType.Verilog, [SourceFile.file "c.sv"])] :=
  ⟨sep_concat categorize files, sep_chain categorize files, rfl⟩

/-- C2 counterexample: in `[a.sv, x.txt, b.sv]` the unclassified `x.txt`
does not terminate the Verilog run — the code emits a single merged
Verilog batch, not two. -/
theorem C2_counterexample :
    separate_files_in_group categorize
        [SourceFile.file "a.sv", SourceFile.file "x.txt", SourceFile.file "b.sv"]
      = [(SourceType.Verilog, [SourceFile.file "a.sv", SourceFile.file "b.sv"])]
    ∧ (separate_files_in_group categorize
        [SourceFile.file "a.sv", SourceFile.file "x.txt", SourceFile.file "b.sv"]).length
      = 1 :=
  ⟨rfl, rfl⟩

/-- C2 (amended): an unclassified file is skipped entirely by the
categorizer — it neither starts nor terminates a batch — so removing it
from the input leaves the batch output unchanged, and classified files of
the same category on both sides of it are merged into one batch. -/
theorem C2_unclassified_skipped {T : Type} [DecidableEq T]
    (c : SourceFile → Option T) (l1 l2 : List SourceFile) (x : SourceFile)
    (h : c x = none) :
    separate_files_in_group c (l1 ++ x :: l2)
      = separate_files_in_group c (l1 ++ l2) := by
  unfold separate_files_in_group
  rw [List.foldl_append, List.foldl_append, List.foldl_cons]
  have hstep : ∀ st, sepStep c st x = st := by
    intro st
    unfold sepStep
    rw [h]
  rw [hstep]

/-! ## Shared concrete inputs for witnesses -/

/-- A concrete flattened group: one Verilog file, one define `A=2`. -/
def exampleGroup : SourceGroup :=
  SourceGroup.mk (some "pkg") false TargetSpec.Wildcard [] [] [("A", some "2")]
    [SourceFile.file "a.sv"] [] none

/-- A concrete CLI-matches record with no special flags. -/
def exampleMatches : CliMatches :=
  { targets := ["t"]
    define_args := ["A=1"]
    vcom_args := []
    vlog_args := []
    only_flags := ⟨false, false, false⟩
    no_simset := false
    vlogan_bin := "vlogan"
    vhdlan_bin := "vhdlan"
    relative_path := false
    compilation_mode := "separate"
    no_abort_on_error := false }

/-- `exampleMatches` with `--only-defines` set. -/
def onlyDefinesMatches : CliMatches :=
  { exampleMatches with only_flags := ⟨true, false, false⟩ }

/-- `exampleMatches` with one `--vcom-arg`. -/
def vcomArgMatches : CliMatches :=
  { exampleMatches with vcom_args := ["-93"] }

/-- C3: when target filtering removes the entire top-level group (returns
no group), `run` substitutes a fallback group with empty files, defines
and include directories, `target = Wildcard` and `independent = true`. -/
theorem C3_fallback_substitution (o : Option SourceGroup) (h : o = none) :
    (substFallback o).files = []
    ∧ (substFallback o).defines = []
    ∧ (substFallback o).include_dirs = []
    ∧ (substFallback o).export_incdirs = []
    ∧ (substFallback o).target = TargetSpec.Wildcard
    ∧ (substFallback o).independent = true := by
  subst h
  exact ⟨rfl, rfl, rfl, rfl, rfl, rfl⟩

/-- Witness for C3 at the concrete input `none`. -/
theorem C3_fallback_substitution_witness :
    (substFallback none).files = []
    ∧ (substFallback none).defines = []
    ∧ (substFallback none).include_dirs = []
    ∧ (substFallback none).export_incdirs = []
    ∧ (substFallback none).target = TargetSpec.Wildcard
    ∧ (substFallback none).independent = true :=
  C3_fallback_substitution none rfl

/-- C4 counterexample: with `only-defines` and `only-includes` both set,
the defines aggregate is emptied even though defines are a selected
category — the claim's "with two flags set both selected categories are
kept" is false. -/
theorem C4_counterexample :
    gateDefines ⟨true, true, false⟩ [(("FOO" : String), (none : Option String))]
      ≠ [(("FOO" : String), (none : Option String))]
    ∧ gateIncdirs ⟨true, true, false⟩ [("incdir" : String)] = [] := by
  refine ⟨?_, rfl⟩
  intro h
  simp [gateDefines] at h

/-- C4 (amended): each aggregate category is kept only when neither of the
other two only-flags is set.  A single flag keeps exactly its selected
category and empties the rest; no flag keeps everything; but the flags do
not compose — with two or more flags set, every aggregate (selected ones
included) is emptied. -/
theorem C4_partial_context (root : String) (m : CliMatches)
    (srcs : List SourceGroup) :
    (m.only_flags = ⟨true, false, false⟩ →
        (assembleContext root m srcs).all_defines
            = allDefinesRaw (globalDefines m.targets m.define_args) srcs
      ∧ (assembleContext root m srcs).all_incdirs = []
      ∧ (assembleContext root m srcs).all_files = []
      ∧ (assembleContext root m srcs).srcs = []
      ∧ (assembleContext root m srcs).all_verilog = []
      ∧ (assembleContext root m srcs).all_vhdl = [])
    ∧ (m.only_flags = ⟨false, true, false⟩ →
        (assembleContext root m srcs).all_defines = []
      ∧ (assembleContext root m srcs).all_incdirs = allIncdirsAgg srcs
      ∧ (assembleContext root m srcs).all_files = []
      ∧ (assembleContext root m srcs).srcs = []
      ∧ (assembleContext root m srcs).all_verilog = []
      ∧ (assembleContext root m srcs).all_vhdl = [])
    ∧ (m.only_flags = ⟨false, false, true⟩ →
        (assembleContext root m srcs).all_defines = []
      ∧ (assembleContext root m srcs).all_incdirs = []
      ∧ (assembleContext root m srcs).all_files = allFilesAgg srcs
      ∧ (assembleContext root m srcs).srcs
            = mkSplitSrcs (globalDefines m.targets m.define_args) srcs
      ∧ (assembleContext root m srcs).all_verilog
            = allVerilogAgg (mkSplitSrcs (globalDefines m.targets m.define_args) srcs)
      ∧ (assembleContext root m srcs).all_vhdl
            = allVhdlAgg (mkSplitSrcs (globalDefines m.targets m.define_args) srcs))
    ∧ (m.only_flags = ⟨false, false, false⟩ →
        (assembleContext root m srcs).all_defines
            = allDefinesRaw (globalDefines m.targets m.define_args) srcs
      ∧ (assembleContext root m srcs).all_incdirs = allIncdirsAgg srcs
      ∧ (assembleContext root m srcs).all_files = allFilesAgg srcs
      ∧ (assembleContext root m srcs).srcs
            = mkSplitSrcs (globalDefines m.targets m.define_args) srcs)
    ∧ ((m.only_flags.only_defines && m.only_flags.only_includes
        || m.only_flags.only_defines && m.only_flags.only_sources
        || m.only_flags.only_includes && m.only_flags.only_sources) = true →
        (assembleContext root m srcs).all_defines = []
      ∧ (assembleContext root m srcs).all_incdirs = []
      ∧ (assembleContext root m srcs).all_files = []
      ∧ (assembleContext root m srcs).srcs = []
      ∧ (assembleContext root m srcs).all_verilog = []
      ∧ (assembleContext root m srcs).all_vhdl = []) := by
  rcases hfl : m.only_flags with ⟨d, i, s⟩
  cases d <;> cases i <;> cases s <;>
    simp [assembleContext, gateDefines, gateIncdirs, gateSources, hfl]

/-- Witness for C4's amended theorem: `only-defines` alone at concrete
inputs keeps the defines aggregate and empties the others. -/
theorem C4_partial_context_witness :
    (assembleContext "/r" onlyDefinesMatches [exampleGroup]).all_defines
        = allDefinesRaw
            (globalDefines onlyDefinesMatches.targets onlyDefinesMatches.define_args)
            [exampleGroup]
    ∧ (assembleContext "/r" onlyDefinesMatches [exampleGroup]).all_incdirs = []
    ∧ (assembleContext "/r" onlyDefinesMatches [exampleGroup]).all_files = []
    ∧ (assembleContext "/r" onlyDefinesMatches [exampleGroup]).srcs = []
    ∧ (assembleContext "/r" onlyDefinesMatches [exampleGroup]).all_verilog = []
    ∧ (assembleContext "/r" onlyDefinesMatches [exampleGroup]).all_vhdl = [] :=
  (C4_partial_context "/r" onlyDefinesMatches [exampleGroup]).1 rfl

/-- Witness for C2's amended theorem at a concrete input. -/
theorem C2_unclassified_skipped_witness :
    separate_files_in_group categorize
        ([SourceFile.file "a.sv"] ++ SourceFile.file "x.txt" :: [SourceFile.file "b.sv"])
      = separate_files_in_group categorize
        ([SourceFile.file "a.sv"] ++ [SourceFile.file "b.sv"]) :=
  C2_unclassified_skipped categorize [SourceFile.file "a.sv"]
    [SourceFile.file "b.sv"] (SourceFile.file "x.txt") rfl


/-! ## Helper lemmas on the define sort -/

lemma insertDef_perm (x : Define) (l : List Define) :
    List.Perm (insertDef x l) (x :: l) := by
  induction l with
  | nil => exact List.Perm.refl _
  | cons y ys ih =>
    rw [insertDef]
    by_cases h : defLE x y = true
    · rw [if_pos h]
    · rw [if_neg h]
      exact (ih.cons y).trans (List.Perm.swap x y ys)

lemma sortDefines_perm (l : List Define) : List.Perm (sortDefines l) l := by
  induction l with
  | nil => exact List.Perm.refl _
  | cons x xs ih => exact (insertDef_perm x (sortDefines xs)).trans (ih.cons x)

lemma charsLT_asymm : ∀ (a b : List Char),
    charsLT a b = true → charsLT b a = false := by
  intro a
  induction a with
  | nil =>
    intro b hb
    cases b with
    | nil => simp [charsLT] at hb
    | cons y ys => simp [charsLT]
  | cons x xs ih =>
    intro b hb
    cases b with
    | nil => simp [charsLT] at hb
    | cons y ys =>
      rw [charsLT] at hb ⊢
      by_cases h1 : x < y
      · rw [if_neg (lt_asymm h1), if_pos h1]
      · rw [if_neg h1] at hb
        by_cases h2 : y < x
        · rw [if_pos h2] at hb
          exact absurd hb (by simp)
        · rw [if_neg h2] at hb
          rw [if_neg h2, if_neg h1]
          exact ih ys hb

lemma charsLT_or : ∀ (c a b : List Char), charsLT c a = true →
    charsLT c b = true ∨ charsLT b a = true := by
  intro c
  induction c with
  | nil =>
    intro a b h
    cases a with
    | nil => simp [charsLT] at h
    | cons x xs =>
      cases b with
      | nil => right; rw [charsLT]
      | cons y ys => left; rw [charsLT]
  | cons z zs ih =>
    intro a b h
    cases a with
    | nil => simp [charsLT] at h
    | cons x xs =>
      cases b with
      | nil => right; rw [charsLT]
      | cons y ys =>
        rw [charsLT] at h
        by_cases hzx : z < x
        · by_cases hzy : z < y
          · left
            rw [charsLT, if_pos hzy]
          · by_cases hyz : y < z
            · right
              rw [charsLT, if_pos (lt_trans hyz hzx)]
            · have hzy_eq : z = y := le_antisymm (not_lt.mp hyz) (not_lt.mp hzy)
              right
              rw [charsLT, if_pos (hzy_eq ▸ hzx)]
        · rw [if_neg hzx] at h
          by_cases hxz : x < z
          · rw [if_pos hxz] at h
            exact absurd h (by simp)
          · rw [if_neg hxz] at h
            have hzx_eq : z = x := le_antisymm (not_lt.mp hxz) (not_lt.mp hzx)
            by_cases hzy : z < y
            · left
              rw [charsLT, if_pos hzy]
            · by_cases hyz : y < z
              · right
                rw [charsLT, if_pos (hzx_eq ▸ hyz)]
              · have hzy_eq : z = y := le_antisymm (not_lt.mp hyz) (not_lt.mp hzy)
                have hyx_eq : y = x := hzy_eq.symm.trans hzx_eq
                rcases ih xs ys h with h1 | h2
                · left
                  rw [charsLT, if_neg hzy, if_neg hyz]
                  exact h1
                · right
                  have hnyx : ¬y < x := by rw [hyx_eq]; exact lt_irrefl x
                  have hnxy : ¬x < y := by rw [hyx_eq]; exact lt_irrefl x
                  rw [charsLT, if_neg hnyx, if_neg hnxy]
                  exact h2

lemma strLE_trans {x y z : String} (h1 : strLE x y = true)
    (h2 : strLE y z = true) : strLE x z = true := by
  unfold strLE at h1 h2 ⊢
  rw [Bool.not_eq_true'] at h1 h2 ⊢
  by_contra hc
  have hc' : charsLT z.data x.data = true := by
    cases hcc : charsLT z.data x.data
    · exact absurd hcc hc
    · rfl
  rcases charsLT_or z.data x.data y.data hc' with h | h
  · rw [h2] at h
    exact absurd h (by simp)
  · rw [h1] at h
    exact absurd h (by simp)

lemma defLE_name {a b : Define} (h : defLE a b = true) :
    strLE a.1 b.1 = true := by
  unfold defLE at h
  unfold strLE
  by_cases h1 : charsLT a.1.data b.1.data = true
  · rw [charsLT_asymm _ _ h1]
    rfl
  · rw [if_neg h1] at h
    by_cases h2 : charsLT b.1.data a.1.data = true
    · rw [if_pos h2] at h
      exact absurd h (by simp)
    · rw [Bool.eq_false_iff.mpr h2]
      rfl

lemma not_defLE_name {a b : Define} (h : defLE a b = false) :
    strLE b.1 a.1 = true := by
  unfold defLE at h
  unfold strLE
  by_cases h1 : charsLT a.1.data b.1.data = true
  · rw [if_pos h1] at h
    exact absurd h (by simp)
  · rw [Bool.eq_false_iff.mpr h1]
    rfl

lemma insertDef_mem {z x : Define} {l : List Define}
    (h : z ∈ insertDef x l) : z = x ∨ z ∈ l := by
  have hm := (insertDef_perm x l).mem_iff.mp h
  simpa using hm

lemma pairwise_insertDef (x : Define) (l : List Define)
    (hl : List.Pairwise (fun a b : Define => strLE a.1 b.1 = true) l) :
    List.Pairwise (fun a b : Define => strLE a.1 b.1 = true) (insertDef x l) := by
  induction l with
  | nil => simp [insertDef]
  | cons y ys ih =>
    have hc := List.pairwise_cons.mp hl
    rw [insertDef]
    by_cases h : defLE x y = true
    · rw [if_pos h]
      refine List.Pairwise.cons ?_ hl
      intro z hz
      rcases List.mem_cons.mp hz with rfl | hz'
      · exact defLE_name h
      · exact strLE_trans (defLE_name h) (hc.1 z hz')
    · rw [if_neg h]
      refine List.Pairwise.cons ?_ (ih hc.2)
      intro z hz
      rcases insertDef_mem hz with rfl | hz'
      · exact not_defLE_name (Bool.eq_false_iff.mpr h)
      · exact hc.1 z hz'

lemma pairwise_sortDefines (l : List Define) :
    List.Pairwise (fun a b : Define => strLE a.1 b.1 = true) (sortDefines l) := by
  induction l with
  | nil => simp [sortDefines]
  | cons x xs ih => exact pairwise_insertDef x (sortDefines xs) ih

lemma mkSplitSrcs_defines {g : List Define} {srcs : List SourceGroup}
    {b : TplSrcStruct} (hb : b ∈ mkSplitSrcs g srcs) :
    ∃ src, src ∈ srcs ∧ b.defines = g ++ src.defines := by
  unfold mkSplitSrcs at hb
  rw [List.mem_flatten] at hb
  obtain ⟨l, hl, hbl⟩ := hb
  rw [List.mem_map] at hl
  obtain ⟨src, hsrc, rfl⟩ := hl
  rw [List.mem_map] at hbl
  obtain ⟨batch, _, rfl⟩ := hbl
  exact ⟨src, hsrc, rfl⟩

/-- The single batch produced from `exampleGroup` under the global defines
of `exampleMatches` (`TARGET_T` from the target, `A=1` from the CLI,
sorted; then the group's `A=2` appended). -/
def exampleBatch : TplSrcStruct :=
  { defines := [("A", some "1"), ("TARGET_T", none), ("A", some "2")]
    incdirs := []
    files := ["a.sv"]
    file_type := "verilog" }

/-- C5: the global define list is a permutation of the CLI defines plus
one valueless `TARGET_<NAME>` define per active target name (uppercased),
it is sorted by define name, and it seeds (is a prefix of) every
per-batch define list. -/
theorem C5_global_defines (targets : List String) (defineArgs : List String) :
    List.Perm (globalDefines targets defineArgs)
        (defineArgs.map parseDefine ++ targetDefines targets)
    ∧ List.Pairwise (fun a b : Define => strLE a.1 b.1 = true)
        (globalDefines targets defineArgs)
    ∧ ∀ (srcs : List SourceGroup) (b : TplSrcStruct),
        b ∈ mkSplitSrcs (globalDefines targets defineArgs) srcs →
        ∃ rest, b.defines = globalDefines targets defineArgs ++ rest := by
  refine ⟨?_, pairwise_sortDefines _, ?_⟩
  · have h := sortDefines_perm
      (add_defines_from_matches (targetDefines targets) defineArgs)
    unfold globalDefines
    unfold add_defines_from_matches at h ⊢
    exact h.trans List.perm_append_comm
  · intro srcs b hb
    obtain ⟨src, _, hdef⟩ := mkSplitSrcs_defines hb
    exact ⟨src.defines, hdef⟩

/-- Witness for C5 at concrete inputs: the batch of `exampleGroup` starts
with the global defines of target `t` and CLI define `A=1`. -/
theorem C5_global_defines_witness :
    ∃ rest, exampleBatch.defines = globalDefines ["t"] ["A=1"] ++ rest :=
  (C5_global_defines ["t"] ["A=1"]).2.2 [exampleGroup] exampleBatch
    (by rw [show mkSplitSrcs (globalDefines ["t"] ["A=1"]) [exampleGroup]
              = [exampleBatch] from rfl]
        exact List.mem_singleton.mpr rfl)

/-- C6: every batch's effective define list is the global defines followed
by the owning group's own defines, as plain concatenation; in particular
with global defines `A=1` and group define `A=2` the batch list is
`[A=1, A=2]`, both entries present, in that order. -/
theorem C6_define_concatenation (g : List Define) (srcs : List SourceGroup) :
    (∀ b ∈ mkSplitSrcs g srcs, ∃ src, src ∈ srcs ∧ b.defines = g ++ src.defines)
    ∧ mkSplitSrcs [(("A" : String), some "1")] [exampleGroup]
        = [{ defines := [("A", some "1"), ("A", some "2")]
             incdirs := []
             files := ["a.sv"]
             file_type := "verilog" }] := by
  refine ⟨?_, rfl⟩
  intro b hb
  exact mkSplitSrcs_defines hb

/-- Witness for C6 at concrete inputs. -/
theorem C6_define_concatenation_witness :
    ∃ src, src ∈ [exampleGroup]
      ∧ ({ defines := [(("A" : String), some "1"), ("A", some "2")]
           incdirs := []
           files := ["a.sv"]
           file_type := "verilog" } : TplSrcStruct).defines
        = ([(("A" : String), some "1")] : List Define) ++ src.defines :=
  (C6_define_concatenation [("A", some "1")] [exampleGroup]).1 _
    (by rw [show mkSplitSrcs [(("A" : String), some "1")] [exampleGroup]
              = [{ defines := [("A", some "1"), ("A", some "2")]
                   incdirs := []
                   files := ["a.sv"]
                   file_type := "verilog" }] from rfl]
        exact List.mem_singleton.mpr rfl)

/-! ## Helper lemmas on first-occurrence deduplication -/

/-- Spec-side definition of "deduplicated ordered set in which the first
occurrence of an element wins its position": keep an element exactly when
it has not been seen before, in input order.  Stated separately from
`dedupFirstWins` (the embedding of `IndexSet::collect`) so the two can be
proved equal. -/
def keepFirstOccAux {α : Type} [DecidableEq α] (seen : List α) :
    List α → List α
  | [] => []
  | x :: xs =>
    if x ∈ seen then keepFirstOccAux seen xs
    else x :: keepFirstOccAux (x :: seen) xs

/-- `keepFirstOccAux` with nothing seen yet. -/
def keepFirstOcc {α : Type} [DecidableEq α] (l : List α) : List α :=
  keepFirstOccAux [] l

lemma keepFirstOccAux_congr {α : Type} [DecidableEq α] (l : List α) :
    ∀ s1 s2 : List α, (∀ a, a ∈ s1 ↔ a ∈ s2) →
      keepFirstOccAux s1 l = keepFirstOccAux s2 l := by
  induction l with
  | nil => intro s1 s2 _; rfl
  | cons x xs ih =>
    intro s1 s2 h
    rw [keepFirstOccAux, keepFirstOccAux]
    by_cases hx : x ∈ s1
    · rw [if_pos hx, if_pos ((h x).mp hx)]
      exact ih s1 s2 h
    · rw [if_neg hx, if_neg (fun c => hx ((h x).mpr c))]
      have he := ih (x :: s1) (x :: s2) (by intro a; simp [h a])
      rw [he]

lemma foldl_dedup {α : Type} [DecidableEq α] (l : List α) :
    ∀ acc : List α,
      l.foldl (fun acc x => if x ∈ acc then acc else acc ++ [x]) acc
        = acc ++ keepFirstOccAux acc l := by
  induction l with
  | nil => intro acc; simp [keepFirstOccAux]
  | cons x xs ih =>
    intro acc
    rw [List.foldl_cons, keepFirstOccAux]
    by_cases hx : x ∈ acc
    · rw [if_pos hx, if_pos hx, ih]
    · rw [if_neg hx, if_neg hx, ih (acc ++ [x])]
      rw [keepFirstOccAux_congr xs (acc ++ [x]) (x :: acc)
        (by intro a; simp [or_comm])]
      simp

lemma dedupFirstWins_eq_keepFirstOcc {α : Type} [DecidableEq α]
    (l : List α) : dedupFirstWins l = keepFirstOcc l := by
  unfold dedupFirstWins keepFirstOcc
  simpa using foldl_dedup l []

lemma keepFirstOccAux_sublist {α : Type} [DecidableEq α] (l : List α) :
    ∀ seen : List α, List.Sublist (keepFirstOccAux seen l) l := by
  induction l with
  | nil => intro seen; simp [keepFirstOccAux]
  | cons x xs ih =>
    intro seen
    rw [keepFirstOccAux]
    by_cases hx : x ∈ seen
    · rw [if_pos hx]
      exact (ih seen).cons x
    · rw [if_neg hx]
      exact (ih (x :: seen)).cons₂ x

lemma keepFirstOccAux_mem {α : Type} [DecidableEq α] {a : α} (l : List α) :
    ∀ seen : List α, a ∈ keepFirstOccAux seen l ↔ a ∈ l ∧ a ∉ seen := by
  induction l with
  | nil => intro seen; simp [keepFirstOccAux]
  | cons x xs ih =>
    intro seen
    rw [keepFirstOccAux]
    by_cases hx : x ∈ seen
    · rw [if_pos hx, ih seen]
      constructor
      · rintro ⟨h1, h2⟩
        exact ⟨List.mem_cons_of_mem x h1, h2⟩
      · rintro ⟨h1, h2⟩
        rcases List.mem_cons.mp h1 with rfl | h1'
        · exact absurd hx h2
        · exact ⟨h1', h2⟩
    · rw [if_neg hx]
      constructor
      · intro hm
        rcases List.mem_cons.mp hm with rfl | hm'
        · exact ⟨List.mem_cons_self a xs, hx⟩
        · have := (ih (x :: seen)).mp hm'
          exact ⟨List.mem_cons_of_mem x this.1,
            fun c => this.2 (List.mem_cons_of_mem x c)⟩
      · rintro ⟨h1, h2⟩
        rcases List.mem_cons.mp h1 with rfl | h1'
        · exact List.mem_cons_self a _
        · by_cases hax : a = x
          · exact hax ▸ List.mem_cons_self x _
          · refine List.mem_cons_of_mem x ((ih (x :: seen)).mpr ⟨h1', ?_⟩)
            intro c
            rcases List.mem_cons.mp c with h | h
            · exact hax h
            · exact h2 h

lemma keepFirstOccAux_nodup {α : Type} [DecidableEq α] (l : List α) :
    ∀ seen : List α, (keepFirstOccAux seen l).Nodup := by
  induction l with
  | nil => intro seen; simp [keepFirstOccAux]
  | cons x xs ih =>
    intro seen
    rw [keepFirstOccAux]
    by_cases hx : x ∈ seen
    · rw [if_pos hx]
      exact ih seen
    · rw [if_neg hx]
      refine List.nodup_cons.mpr ⟨?_, ih (x :: seen)⟩
      intro hmem
      exact ((keepFirstOccAux_mem xs (x :: seen)).mp hmem).2
        (List.mem_cons_self x seen)

/-- Packaged first-occurrence-dedup facts for one aggregate. -/
lemma dedup_props {α : Type} [DecidableEq α] (l : List α) :
    dedupFirstWins l = keepFirstOcc l
    ∧ (dedupFirstWins l).Nodup
    ∧ List.Sublist (dedupFirstWins l) l := by
  refine ⟨dedupFirstWins_eq_keepFirstOcc l, ?_, ?_⟩
  · rw [dedupFirstWins_eq_keepFirstOcc]
    exact keepFirstOccAux_nodup l []
  · rw [dedupFirstWins_eq_keepFirstOcc]
    exact keepFirstOccAux_sublist l []

/-- C8: the global include-dir aggregate, the global file aggregate and
the per-category file aggregates are each first-occurrence-deduplicated
ordered sets over the respective concatenation in flattened group (and
batch) order: each equals the keep-first-occurrence subsequence of its
underlying concatenation, has no duplicates, and is a sublist of it
(preserving relative order). -/
theorem C8_dedup_aggregates (gdefs : List Define) (srcs : List SourceGroup) :
    (allIncdirsAgg srcs
        = keepFirstOcc ((srcs.map SourceGroup.get_incdirs).flatten)
      ∧ (allIncdirsAgg srcs).Nodup
      ∧ List.Sublist (allIncdirsAgg srcs)
          ((srcs.map SourceGroup.get_incdirs).flatten))
    ∧ (allFilesAgg srcs
        = keepFirstOcc (((srcs.map SourceGroup.files).flatten).filterMap filePath)
      ∧ (allFilesAgg srcs).Nodup
      ∧ List.Sublist (allFilesAgg srcs)
          (((srcs.map SourceGroup.files).flatten).filterMap filePath))
    ∧ (allVerilogAgg (mkSplitSrcs gdefs srcs)
        = keepFirstOcc
            ((((mkSplitSrcs gdefs srcs).filter
                (fun s => s.file_type = "verilog")).map TplSrcStruct.files).flatten)
      ∧ (allVerilogAgg (mkSplitSrcs gdefs srcs)).Nodup
      ∧ List.Sublist (allVerilogAgg (mkSplitSrcs gdefs srcs))
          ((((mkSplitSrcs gdefs srcs).filter
              (fun s => s.file_type = "verilog")).map TplSrcStruct.files).flatten))
    ∧ (allVhdlAgg (mkSplitSrcs gdefs srcs)
        = keepFirstOcc
            ((((mkSplitSrcs gdefs srcs).filter
                (fun s => s.file_type = "vhdl")).map TplSrcStruct.files).flatten)
      ∧ (allVhdlAgg (mkSplitSrcs gdefs srcs)).Nodup
      ∧ List.Sublist (allVhdlAgg (mkSplitSrcs gdefs srcs))
          ((((mkSplitSrcs gdefs srcs).filter
              (fun s => s.file_type = "vhdl")).map TplSrcStruct.files).flatten)) :=
  ⟨dedup_props _, dedup_props _, dedup_props _, dedup_props _⟩

/-- C9: the context assembly (and the validated run around it) is a
deterministic pure function of the immutable input and the flags — two
runs on equal inputs produce equal contexts, hence equal rendered bytes
for any (deterministic) template renderer. -/
theorem C9_deterministic (root root2 : String) (m m2 : CliMatches)
    (format format2 : String) (srcs srcs2 : List SourceGroup)
    (h1 : root = root2) (h2 : m = m2) (h3 : format = format2)
    (h4 : srcs = srcs2) :
    runScript root m format srcs = runScript root2 m2 format2 srcs2
    ∧ assembleContext root m srcs = assembleContext root2 m2 srcs2 := by
  subst h1
  subst h2
  subst h3
  subst h4
  exact ⟨rfl, rfl⟩

/-- Witness for C9 at concrete inputs. -/
theorem C9_deterministic_witness :
    runScript "/" exampleMatches "flist" [exampleGroup]
        = runScript "/" exampleMatches "flist" [exampleGroup]
    ∧ assembleContext "/" exampleMatches [exampleGroup]
        = assembleContext "/" exampleMatches [exampleGroup] :=
  C9_deterministic "/" "/" exampleMatches exampleMatches "flist" "flist"
    [exampleGroup] [exampleGroup] rfl rfl rfl rfl

/-- C7 counterexample: `--vcom-arg` together with format `template` —
which is not a simulator-class format — raises no option-conflict error:
validation passes and the run succeeds, contradicting the claimed
raises-iff. -/
theorem C7_counterexample :
    vcomArgMatches.vcom_args ≠ []
    ∧ ("template" : String) ∉ (["vsim", "vcs", "riviera"] : List String)
    ∧ validateFormatOptions vcomArgMatches "template" = none
    ∧ runScript "/" vcomArgMatches "template" []
        = Except.ok (assembleContext "/" vcomArgMatches []) := by
  refine ⟨?_, ?_, rfl, rfl⟩
  · intro h
    simp [vcomArgMatches, exampleMatches] at h
  · decide

/-- C7 (amended): the vsim/vcs-only option-conflict error is raised iff a
`--vcom-arg`/`--vlog-arg` is supplied and the format is none of `vsim`,
`vcs`, `riviera`, `template`, `template_json`; any validation error aborts
the run before the template context is assembled. -/
theorem C7_vcom_vlog_validation (m : CliMatches) (format : String) :
    (validateFormatOptions m format = some ScriptErr.vsimOnlyOpts ↔
      ((m.vcom_args ≠ [] ∨ m.vlog_args ≠ [])
        ∧ format ∉ (["vsim", "vcs", "riviera", "template", "template_json"] :
            List String)))
    ∧ (∀ (root : String) (srcs : List SourceGroup) (e : ScriptErr),
        validateFormatOptions m format = some e →
        runScript root m format srcs = Except.error e) := by
  constructor
  · have hiff :
        (((!m.vcom_args.isEmpty || !m.vlog_args.isEmpty)
          && format != "vsim" && format != "vcs" && format != "riviera"
          && format != "template" && format != "template_json") = true)
        ↔ ((m.vcom_args ≠ [] ∨ m.vlog_args ≠ [])
            ∧ format ∉ (["vsim", "vcs", "riviera", "template", "template_json"] :
                List String)) := by
      simp [Bool.and_eq_true, Bool.or_eq_true, bne_iff_ne, and_assoc, not_or]
    unfold validateFormatOptions
    by_cases hA : ((!m.vcom_args.isEmpty || !m.vlog_args.isEmpty)
        && format != "vsim" && format != "vcs" && format != "riviera"
        && format != "template" && format != "template_json") = true
    · rw [if_pos hA]
      exact iff_of_true rfl (hiff.mp hA)
    · rw [if_neg hA]
      have hR := fun h => hA (hiff.mpr h)
      by_cases hB : ((m.only_flags.only_defines || m.only_flags.only_includes
            || m.only_flags.only_sources || m.no_simset)
          && !(format.startsWith "vivado")
          && format != "template" && format != "template_json") = true
      · rw [if_pos hB]
        exact iff_of_false (by simp) hR
      · rw [if_neg hB]
        exact iff_of_false (by simp) hR
  · intro root srcs e h
    unfold runScript
    rw [h]

/-- Witness for C7's amended theorem: `--vcom-arg` with format `flist`
raises the error before any context is assembled. -/
theorem C7_vcom_vlog_validation_witness :
    runScript "/" vcomArgMatches "flist" []
      = Except.error ScriptErr.vsimOnlyOpts :=
  (C7_vcom_vlog_validation vcomArgMatches "flist").2 "/" []
    ScriptErr.vsimOnlyOpts rfl

/-! ## Helper lemmas on define parsing -/

lemma splitFirstEq_no_eq : ∀ {s : List Char}, '=' ∉ s →
    splitFirstEq s = (s, none) := by
  intro s
  induction s with
  | nil => intro _; rfl
  | cons c cs ih =>
    intro h
    have hc : ¬c = '=' := fun e => h (e ▸ List.mem_cons_self c cs)
    rw [splitFirstEq, if_neg hc, ih (fun hm => h (List.mem_cons_of_mem c hm))]

lemma splitFirstEq_append (b : List Char) : ∀ {a : List Char}, '=' ∉ a →
    splitFirstEq (a ++ '=' :: b) = (a, some b) := by
  intro a
  induction a with
  | nil =>
    intro _
    rw [List.nil_append, splitFirstEq, if_pos rfl]
  | cons c cs ih =>
    intro h
    have hc : ¬c = '=' := fun e => h (e ▸ List.mem_cons_self c cs)
    rw [List.cons_append, splitFirstEq, if_neg hc,
      ih (fun hm => h (List.mem_cons_of_mem c hm))]

/-- C10: a `--define` argument is split at the first `=` only — the
trimmed part before it is the name and the trimmed remainder (further `=`
included) is the value — and an argument with no `=` yields a define with
no value; `A=B=C` parses to name `A`, value `B=C`. -/
theorem C10_define_split (a b s : List Char) :
    ('=' ∉ a →
      parseDefineChars (a ++ '=' :: b) = (trimChars a, some (trimChars b)))
    ∧ ('=' ∉ s → parseDefineChars s = (trimChars s, none))
    ∧ parseDefine "A=B=C" = (("A" : String), some "B=C") := by
  refine ⟨?_, ?_, rfl⟩
  · intro h
    unfold parseDefineChars
    rw [splitFirstEq_append b h]
    rfl
  · intro h
    unfold parseDefineChars
    rw [splitFirstEq_no_eq h]
    rfl

/-- Witness for C10 at concrete inputs: ` A =1=2` and `NOVAL`. -/
theorem C10_define_split_witness :
    parseDefineChars ((' ' :: 'A' :: ' ' :: []) ++ '=' :: ('1' :: '=' :: '2' :: []))
        = (trimChars (' ' :: 'A' :: ' ' :: []),
           some (trimChars ('1' :: '=' :: '2' :: [])))
    ∧ parseDefineChars ('N' :: 'O' :: [])
        = (trimChars ('N' :: 'O' :: []), none) :=
  ⟨(C10_define_split (' ' :: 'A' :: ' ' :: []) ('1' :: '=' :: '2' :: [])
      ('N' :: 'O' :: [])).1 (by decide),
   (C10_define_split (' ' :: 'A' :: ' ' :: []) ('1' :: '=' :: '2' :: [])
      ('N' :: 'O' :: [])).2.1 (by decide)⟩
